import Mathlib

/-!
Shallow embedding of the `cleanup` repository (an index-backed disk-space
janitor made of `indexer.py`, `cleanup.py`, `api.py`) and proofs of the
frozen claims about it.

The embedding models:
* the shared SQLite index (`file_index` rows) as a list of `IndexEntry`,
* the append-only `cleanup_history` table as a list of `HistoryRecord`,
* the flat set of files the evictor touches via `os.remove` as a list of
  absolute path strings,
* the directory tree walked by the indexer as a rose tree (`DirTree`),
* the PID-lock file and the policy-configuration files as explicit state.

Python functions are translated one-for-one; effectful library behaviour
(`os.remove` raising, SQLite transactions committing or rolling back,
`open(path, "w")` truncating) is made explicit in the state passed around.
-/

namespace Cleanup

/-- One row of the `file_index` table (`target_directory, path, mtime, size`);
`path` is the primary key. -/
structure IndexEntry where
  target_directory : String
  path : String
  mtime : Int
  size : Nat
deriving Repr, DecidableEq

/-- One row of the append-only `cleanup_history` table (minus the
autoincrement id and timestamp, which no claim mentions). -/
structure HistoryRecord where
  target_directory : String
  status : String
  files_removed_by_age : Nat
  files_removed_by_size : Nat
  bytes_removed_total : Nat
  message : String
deriving Repr, DecidableEq

/-- The summary dict returned by `cleanup_directory_by_age` /
`cleanup_directory_by_size` (missing keys are already defaulted the way
`save_history_log`'s `.get(...)` calls would). -/
structure Summary where
  status : String
  files_removed_by_age : Nat := 0
  files_removed_by_size : Nat := 0
  bytes_removed_total : Nat := 0
  message : String := "No message."
deriving Repr, DecidableEq

/-- The durable state an evictor run touches: the files on disk (as the flat
set of absolute paths `os.remove` can hit), the `file_index` rows, and the
`cleanup_history` rows. -/
structure EvictState where
  fs : List String
  index : List IndexEntry
  history : List HistoryRecord
deriving Repr, DecidableEq

/-- `SECONDS_IN_A_DAY` from cleanup.py. -/
def SECONDS_IN_A_DAY : Int := 86400

/-- `safe_remove_file(path, reason, dry_run)` from cleanup.py.
`failRemove` says for which present files `os.remove` raises an error other
than `FileNotFoundError` (the `except Exception` branch, returning `False`);
removing an absent file raises `FileNotFoundError`, which the code treats as
success. Returns the `True`/`False` result and the filesystem afterwards. -/
def safe_remove_file (failRemove : String → Bool) (fs : List String)
    (path : String) (dry_run : Bool) : Bool × List String :=
  if dry_run then (true, fs)
  else if fs.contains path then
    if failRemove path then (false, fs) else (true, fs.erase path)
  else (true, fs)

/-- Accumulator of the row loops in `cleanup_directory_by_age` and
`cleanup_directory_by_size`: the filesystem so far, the removed-file count,
the removed bytes, and `paths_to_remove_from_db`. -/
structure EvictAcc where
  fs : List String
  count : Nat
  bytes : Nat
  paths : List String
deriving Repr, DecidableEq

/-- The `for row in cursor.execute(query)` loop shared by
`cleanup_directory_by_age` and phase 1 of `cleanup_directory_by_size`:
try to delete every row's file, counting rows whose delete reported
success and collecting their paths. -/
def evictLoop (failRemove : String → Bool) (dry_run : Bool)
    (fs : List String) : List IndexEntry → EvictAcc
  | [] => ⟨fs, 0, 0, []⟩
  | e :: rest =>
    let r := safe_remove_file failRemove fs e.path dry_run
    let acc := evictLoop failRemove dry_run r.2 rest
    if r.1 then ⟨acc.fs, acc.count + 1, acc.bytes + e.size, e.path :: acc.paths⟩
    else acc

/-- Phase-2 loop of `cleanup_directory_by_size` (`if size_to_remove <= 0:
break` then delete), over the rows of the `ORDER BY mtime ASC` query. -/
def quotaLoop (failRemove : String → Bool) (dry_run : Bool)
    (fs : List String) (size_to_remove : Int) : List IndexEntry → EvictAcc
  | [] => ⟨fs, 0, 0, []⟩
  | e :: rest =>
    if size_to_remove ≤ 0 then ⟨fs, 0, 0, []⟩
    else
      let r := safe_remove_file failRemove fs e.path dry_run
      if r.1 then
        let acc := quotaLoop failRemove dry_run r.2 (size_to_remove - (e.size : Int)) rest
        ⟨acc.fs, acc.count + 1, acc.bytes + e.size, e.path :: acc.paths⟩
      else
        quotaLoop failRemove dry_run r.2 size_to_remove rest

/-- `remove_paths_from_index`: `executemany("DELETE FROM file_index WHERE
path = ?", ...)`, one delete statement per collected path. -/
def remove_paths_from_index (index : List IndexEntry)
    (paths_to_remove : List String) : List IndexEntry :=
  paths_to_remove.foldl (fun idx p => idx.filter (fun e => e.path != p)) index

/-- `save_history_log`: `INSERT INTO cleanup_history ...` with the summary's
fields (the `.get` defaults are already baked into `Summary`). -/
def save_history_log (st : EvictState) (target_path : String)
    (summary : Summary) : EvictState :=
  { st with history := st.history ++
      [{ target_directory := target_path
         status := summary.status
         files_removed_by_age := summary.files_removed_by_age
         files_removed_by_size := summary.files_removed_by_size
         bytes_removed_total := summary.bytes_removed_total
         message := summary.message }] }

/-- The rows `SELECT path, size FROM file_index WHERE target_directory = ?
AND mtime < ?` returns. -/
def selectOlder (index : List IndexEntry) (target_path : String)
    (cutoff : Int) : List IndexEntry :=
  index.filter (fun e => e.target_directory == target_path && decide (e.mtime < cutoff))

/-- The rows `... WHERE target_directory = ? AND mtime >= ?` returns. -/
def selectNewer (index : List IndexEntry) (target_path : String)
    (cutoff : Int) : List IndexEntry :=
  index.filter (fun e => e.target_directory == target_path && decide (cutoff ≤ e.mtime))

/-- The row order produced by `ORDER BY mtime ASC` (SQLite returns some
mtime-sorted permutation; we fix a stable sort as its model). -/
def sortByMtime (l : List IndexEntry) : List IndexEntry :=
  l.insertionSort (fun a b => a.mtime ≤ b.mtime)

/-- `cleanup_directory_by_age(db_path, target_path, max_days, dry_run)`.
`dbOk = false` models the `except sqlite3.Error` path (index unreadable):
the summary is `failed` and nothing is touched. `now` is `time.time()`. -/
def cleanup_directory_by_age (dbOk : Bool) (failRemove : String → Bool)
    (st : EvictState) (target_path : String) (now : Int) (max_days : Int)
    (dry_run : Bool) : EvictState × Summary :=
  if !dbOk then
    (st, { status := "failed", message := "Failed to read index" })
  else
    let cutoff_time := now - max_days * SECONDS_IN_A_DAY
    let acc := evictLoop failRemove dry_run st.fs (selectOlder st.index target_path cutoff_time)
    let index' := if dry_run then st.index else remove_paths_from_index st.index acc.paths
    ({ st with fs := acc.fs, index := index' },
     { status := if dry_run then "dry_run" else "success"
       files_removed_by_age := acc.count
       files_removed_by_size := 0
       bytes_removed_total := acc.bytes
       message := "Removed " ++ toString acc.count ++ " files." })

/-- `cleanup_directory_by_size(db_path, target_path, max_bytes,
max_file_age_days, dry_run)`: phase 1 expires `mtime < cutoff` rows exactly
like the age policy, then phase 2 trims oldest-first while the summed size
of the `mtime >= cutoff` rows still exceeds `max_bytes`. -/
def cleanup_directory_by_size (dbOk : Bool) (failRemove : String → Bool)
    (st : EvictState) (target_path : String) (now : Int) (max_bytes : Int)
    (max_file_age_days : Int) (dry_run : Bool) : EvictState × Summary :=
  if !dbOk then
    (st, { status := "failed", message := "Failed to read index" })
  else
    let age_cutoff := now - max_file_age_days * SECONDS_IN_A_DAY
    let accAge := evictLoop failRemove dry_run st.fs (selectOlder st.index target_path age_cutoff)
    let total_size_of_new_files : Nat :=
      ((selectNewer st.index target_path age_cutoff).map (·.size)).sum
    if (total_size_of_new_files : Int) ≤ max_bytes then
      let index' := if dry_run then st.index else remove_paths_from_index st.index accAge.paths
      ({ st with fs := accAge.fs, index := index' },
       { status := if dry_run then "dry_run" else "success"
         files_removed_by_age := accAge.count
         files_removed_by_size := 0
         bytes_removed_total := accAge.bytes
         message := "OK! Size is below target. Removed " ++ toString accAge.count ++ " file(s) by age." })
    else
      let size_to_remove : Int := (total_size_of_new_files : Int) - max_bytes
      let accSize := quotaLoop failRemove dry_run accAge.fs size_to_remove
        (sortByMtime (selectNewer st.index target_path age_cutoff))
      let index' := if dry_run then st.index
        else remove_paths_from_index st.index (accAge.paths ++ accSize.paths)
      ({ st with fs := accSize.fs, index := index' },
       { status := if dry_run then "dry_run" else "success"
         files_removed_by_age := accAge.count
         files_removed_by_size := accSize.count
         bytes_removed_total := accAge.bytes + accSize.bytes
         message := "Finished. Removed " ++ toString accAge.count ++ " (age) + "
           ++ toString accSize.count ++ " (size) files." })

/-- `is_path_protected` (identical in cleanup.py, indexer.py and api.py),
applied to the result of `os.path.normpath(os.path.abspath(target_path))`;
`none` models that normalization raising `ValueError` (caught, returning
`True`). The loop over `PROTECTED_PATHS_ABS` returns at the first match;
Python's `str.startswith` is a code-point prefix test, modelled here on the
strings' character lists (`os.sep` is `/`). -/
def is_path_protected (protectedPaths : List String)
    (normTarget : Option String) : Bool :=
  match normTarget with
  | none => true
  | some abs_target_path =>
    protectedPaths.any (fun protected_p =>
      (protected_p == "/" && abs_target_path == "/") ||
      (protected_p != "/" &&
        (abs_target_path == protected_p ||
         (protected_p ++ "/").data.isPrefixOf abs_target_path.data)))

/-- One per-target policy dict as loaded from a `directories.d/*.yaml`
file; `none` fields model keys absent from the YAML mapping (so that
`dir_config.get(key, default)` is `Option.getD`). -/
structure DirConfig where
  target_directory : Option String := none
  monitor_method : Option String := none
  max_file_age_days : Option Int := none
  max_size_bytes : Option Int := none
  max_depth : Option Nat := none
  remove : Option Bool := none
deriving Repr, DecidableEq

/-- The body of the per-target loop of cleanup.py's `run_main_logic`:
skip configs without `target_directory`, skip protected targets (note: with
no history record), default the missing policy fields, dispatch on
`monitor_method`, and append one history record with the summary.
`norm` is the `os.path.normpath(os.path.abspath(·))` oracle. -/
def processTarget (dbOk : Bool) (failRemove : String → Bool)
    (norm : String → Option String) (protectedPaths : List String)
    (now : Int) (st : EvictState) (dir_config : DirConfig) : EvictState :=
  match dir_config.target_directory with
  | none => st
  | some target_path =>
    if is_path_protected protectedPaths (norm target_path) then st
    else
      let monitor_method := dir_config.monitor_method.getD "size"
      let is_dry_run := !(dir_config.remove.getD false)
      let max_file_age_days := dir_config.max_file_age_days.getD 30
      let max_size_bytes := dir_config.max_size_bytes.getD (400 * 1024 ^ 3)
      let r :=
        if monitor_method == "size" then
          cleanup_directory_by_size dbOk failRemove st target_path now
            max_size_bytes max_file_age_days is_dry_run
        else if monitor_method == "age" then
          cleanup_directory_by_age dbOk failRemove st target_path now
            max_file_age_days is_dry_run
        else
          (st, { status := "failed",
                 message := "Invalid monitor_method: " ++ monitor_method })
      save_history_log r.1 target_path r.2

/-- cleanup.py's `run_main_logic`: process each loaded directory config in
order against the shared state. -/
def run_main_logic (dbOk : Bool) (failRemove : String → Bool)
    (norm : String → Option String) (protectedPaths : List String)
    (now : Int) (st : EvictState) (configs : List DirConfig) : EvictState :=
  configs.foldl (processTarget dbOk failRemove norm protectedPaths now) st

end Cleanup

namespace Indexer

/-- A file as `os.scandir`/`os.walk` sees it: name plus the `stat` results
the indexer records. -/
structure FileEntry where
  name : String
  mtime : Int
  size : Nat
deriving Repr, DecidableEq

mutual
/-- A directory: its direct file entries and its subdirectories. -/
inductive DirTree : Type where
  | node : List FileEntry → DirForest → DirTree
deriving Repr, DecidableEq
/-- An ordered list of named subdirectories (the nesting is split into a
mutual inductive so that structural recursion and induction stay simple). -/
inductive DirForest : Type where
  | nil : DirForest
  | cons : String → DirTree → DirForest → DirForest
deriving Repr, DecidableEq
end

mutual
/-- `iterate_recursive_files_with_depth(path, max_depth)` from the directory
`dirpath` sitting at `depth` (the target root is depth 0): a directory with
`depth > max_depth` is skipped and not descended into, otherwise its files
are yielded as `(mtime, size, path)` and the walk recurses. -/
def walkFiles (max_depth : Nat) (dirpath : String) (depth : Nat) :
    DirTree → List (Int × Nat × String)
  | .node files sub =>
    if depth > max_depth then []
    else files.map (fun f => (f.mtime, f.size, dirpath ++ "/" ++ f.name)) ++
      walkForest max_depth dirpath depth sub
/-- The walk over the subdirectories of a directory at `depth` (so each
child is at `depth + 1`). -/
def walkForest (max_depth : Nat) (dirpath : String) (depth : Nat) :
    DirForest → List (Int × Nat × String)
  | .nil => []
  | .cons name t rest =>
    walkFiles max_depth (dirpath ++ "/" ++ name) (depth + 1) t ++
      walkForest max_depth dirpath depth rest
end

/-- `iterate_root_files_only(path)`: only the direct file entries of the
target directory, no recursion. -/
def iterate_root_files_only (dirpath : String) : DirTree → List (Int × Nat × String)
  | .node files _ => files.map (fun f => (f.mtime, f.size, dirpath ++ "/" ++ f.name))

/-- `get_file_iterator(path, max_depth)`. -/
def get_file_iterator (dirpath : String) (max_depth : Option Nat)
    (t : DirTree) : List (Int × Nat × String) :=
  match max_depth with
  | none => iterate_root_files_only dirpath t
  | some n => walkFiles n dirpath 0 t

mutual
/-- `remove_deep_directories`' walk from a directory at `depth` (with every
`shutil.rmtree` assumed to succeed): returns the surviving tree and the
removed-directory count.  Under dry-run the directory is kept but still
counted and not descended into. -/
def pruneTree (max_depth : Nat) (dry_run : Bool) (depth : Nat) :
    DirTree → DirTree × Nat
  | .node files sub =>
    let r := pruneForest max_depth dry_run (depth + 1) sub
    (.node files r.1, r.2)
/-- The pruning walk over subdirectories sitting at `depth`: one at
`depth > max_depth` is removed whole (or kept under dry-run) and never
descended into. -/
def pruneForest (max_depth : Nat) (dry_run : Bool) (depth : Nat) :
    DirForest → DirForest × Nat
  | .nil => (.nil, 0)
  | .cons name t rest =>
    if depth > max_depth then
      let r := pruneForest max_depth dry_run depth rest
      (if dry_run then .cons name t r.1 else r.1, r.2 + 1)
    else
      let rt := pruneTree max_depth dry_run depth t
      let rr := pruneForest max_depth dry_run depth rest
      (.cons name rt.1 rr.1, rt.2 + rr.2)
end

/-- `remove_deep_directories(root_path, max_depth, dry_run)`:
`max_depth is None` returns immediately with count 0. -/
def remove_deep_directories (max_depth : Option Nat) (dry_run : Bool)
    (t : DirTree) : DirTree × Nat :=
  match max_depth with
  | none => (t, 0)
  | some n => pruneTree n dry_run 0 t

mutual
/-- Specification-side enumeration: every file of the tree together with
the depth of its containing directory (target root = depth 0). -/
def allFilesFrom (dirpath : String) (depth : Nat) :
    DirTree → List (Nat × Int × Nat × String)
  | .node files sub =>
    files.map (fun f => (depth, f.mtime, f.size, dirpath ++ "/" ++ f.name)) ++
      allFilesForest dirpath depth sub
/-- `allFilesFrom` over a forest of subdirectories at `depth`. -/
def allFilesForest (dirpath : String) (depth : Nat) :
    DirForest → List (Nat × Int × Nat × String)
  | .nil => []
  | .cons name t rest =>
    allFilesFrom (dirpath ++ "/" ++ name) (depth + 1) t ++
      allFilesForest dirpath depth rest
end

/-- The SQL statements `run_indexing` issues inside its transaction. -/
inductive SqlStmt where
  | deleteByTarget (target_directory : String)
  | insertEntry (e : Cleanup.IndexEntry)
deriving Repr, DecidableEq

/-- Effect of one statement on the `file_index` table. -/
def applyStmt (index : List Cleanup.IndexEntry) : SqlStmt → List Cleanup.IndexEntry
  | .deleteByTarget t => index.filter (fun e => e.target_directory != t)
  | .insertEntry e => index ++ [e]

/-- The statement sequence of `run_indexing`: one
`DELETE FROM file_index WHERE target_directory = ?` followed by one
`INSERT` per enumerated `(mtime, size, path)` row. -/
def indexingStmts (target_path : String)
    (files : List (Int × Nat × String)) : List SqlStmt :=
  SqlStmt.deleteByTarget target_path ::
    files.map (fun f => SqlStmt.insertEntry
      { target_directory := target_path, path := f.2.2, mtime := f.1, size := f.2.1 })

/-- `run_indexing(target_path, max_depth, db_path)`.  The whole delete +
insert runs inside one `with sqlite3.connect(...)` block, whose context
manager commits on success and rolls the transaction back when the file
enumeration (`except Exception`) or the database (`except sqlite3.Error`,
modelled by `dbOk = false`) fails; either failure returns `False` with the
table untouched. -/
def run_indexing (dbOk : Bool) (target_path : String)
    (enumerated : Except String (List (Int × Nat × String)))
    (index : List Cleanup.IndexEntry) : Bool × List Cleanup.IndexEntry :=
  match enumerated with
  | .error _ => (false, index)
  | .ok files =>
    if !dbOk then (false, index)
    else (true, (indexingStmts target_path files).foldl applyStmt index)

/-- The state one target's scan touches: that target's directory tree and
the shared `file_index` table. -/
structure ScanState where
  tree : DirTree
  index : List Cleanup.IndexEntry
deriving Repr, DecidableEq

/-- The per-target body of indexer.py's `run_main_logic`: depth-prune the
tree (dry-run aware), then refresh the index from a fresh enumeration —
note the enumeration and index refresh are NOT gated on `is_dry_run`. -/
def scanTarget (dbOk : Bool) (target_path : String) (max_depth : Option Nat)
    (is_dry_run : Bool) (st : ScanState) : ScanState × Bool :=
  let pr := remove_deep_directories max_depth is_dry_run st.tree
  let r := run_indexing dbOk target_path
    (.ok (get_file_iterator target_path max_depth pr.1)) st.index
  ({ tree := pr.1, index := r.2 }, r.1)

end Indexer

namespace PidLock

/-- The per-role PID lock file: whether some process currently holds the
`flock` on it, and its byte contents. -/
structure LockFile where
  held : Bool
  contents : String
deriving Repr, DecidableEq

/-- The `__main__` PID-lock block shared by cleanup.py and indexer.py:
`open(PID_FILE_PATH, "w")` (which truncates the file), then
`flock(LOCK_EX | LOCK_NB)`; on `IOError`/`BlockingIOError` it warns and
`sys.exit(0)`, otherwise it writes its own PID.  Returns the exit code if
the process exited, and the lock file afterwards. -/
def acquire_pid_lock (pid : Nat) (lf : LockFile) : Option Nat × LockFile :=
  let opened : LockFile := { lf with contents := "" }
  if opened.held then (some 0, opened)
  else (none, { held := true, contents := toString pid })

end PidLock

namespace Api

/-- File-level operations a config read/write performs, as an explicit
trace (so locking and atomicity are inspectable). -/
inductive FileOp where
  | openRead (path : String)
  | readAll (path : String)
  | openTrunc (path : String)
  | writeChunk (path : String) (data : String)
  | closeF (path : String)
  | flockSh (path : String)
  | flockEx (path : String)
  | funlock (path : String)
  | renameReplace (src : String) (dst : String)
deriving Repr, DecidableEq

/-- Whether an operation takes an advisory `fcntl.flock` lock. -/
def FileOp.isLockOp : FileOp → Bool
  | .flockSh _ => true
  | .flockEx _ => true
  | _ => false

/-- Trace of api.py `load_directory_configs`' per-policy-file body:
`with open(f.path, "r") as file: yaml.safe_load(file)` — a plain
open/read/close with no `flock` call. -/
def load_directory_config_ops (path : String) : List FileOp :=
  [.openRead path, .readAll path, .closeF path]

/-- Trace of `load_config_from_yaml` (the global config.yaml), for
contrast: this one does wrap the read in `LOCK_SH`. -/
def load_config_from_yaml_ops (path : String) : List FileOp :=
  [.openRead path, .flockSh path, .readAll path, .funlock path, .closeF path]

/-- Trace of api.py `write_directory_config`: open `file_path + ".tmp"` for
(truncating) write, dump the YAML into it (as a sequence of chunk writes),
close, then `os.replace(tmp_path, file_path)` — and no `flock` call. -/
def write_directory_config_ops (dir_path : String) (filename : String)
    (chunks : List String) : List FileOp :=
  let file_path := dir_path ++ "/" ++ filename
  let tmp_path := file_path ++ ".tmp"
  [FileOp.openTrunc tmp_path] ++ chunks.map (FileOp.writeChunk tmp_path) ++
    [FileOp.closeF tmp_path, FileOp.renameReplace tmp_path file_path]

/-- Effect of one operation on the store (path ↦ file contents);
`renameReplace` is atomic: one step swings `dst` from old to new. -/
def applyOp (fs : String → Option String) : FileOp → (String → Option String)
  | .openTrunc p => fun q => if q == p then some "" else fs q
  | .writeChunk p s => fun q => if q == p then some ((fs p).getD "" ++ s) else fs q
  | .renameReplace src dst =>
    fun q => if q == src then none else if q == dst then fs src else fs q
  | _ => fs

/-- Run a trace of operations over the store. -/
def runOps (fs : String → Option String) (ops : List FileOp) :
    String → Option String :=
  ops.foldl applyOp fs

end Api

/-- Concrete evictor state for the C1 witness: two indexed files for
target `/d`, one older than the cutoff. -/
def c1st : Cleanup.EvictState :=
  { fs := ["/d/a", "/d/b"],
    index := [⟨"/d", "/d/a", -100, 7⟩, ⟨"/d", "/d/b", 50, 3⟩],
    history := [] }

/-- Concrete evictor state for the C2 witness: three 10-byte files newer
than the cutoff, quota 15 (the spec's own example). -/
def c2st : Cleanup.EvictState :=
  { fs := ["/d/a", "/d/b", "/d/c"],
    index := [⟨"/d", "/d/a", 1, 10⟩, ⟨"/d", "/d/b", 2, 10⟩,
              ⟨"/d", "/d/c", 3, 10⟩],
    history := [] }

/-- Concrete scanner state for the C3 counterexample: the target's tree is
empty on disk but the index still holds one (stale) row for it. -/
def c3st : Indexer.ScanState :=
  { tree := Indexer.DirTree.node [] Indexer.DirForest.nil,
    index := [⟨"/d", "/d/ghost", 0, 5⟩] }

namespace Indexer

/-- Forget the depth annotation of a specification-side file record. -/
def dropDepth (q : Nat × Int × Nat × String) : Int × Nat × String :=
  (q.2.1, q.2.2.1, q.2.2.2)

end Indexer

namespace Cleanup

/-- Whether cleanup.py's `run_main_logic` actually processes a directory
config (a missing `target_directory` or a protected target is skipped
before any policy runs — and, notably, before any history write). -/
def eligible (norm : String → Option String) (protectedPaths : List String)
    (cfg : DirConfig) : Option String :=
  match cfg.target_directory with
  | none => none
  | some t => if is_path_protected protectedPaths (norm t) then none else some t

/-- The targets a run writes history records for, in order. -/
def eligibleTargets (norm : String → Option String)
    (protectedPaths : List String) (configs : List DirConfig) : List String :=
  configs.filterMap (eligible norm protectedPaths)

end Cleanup

/-- The directory config used in the C7 counterexample: a protected
target. -/
def c7cfg : Cleanup.DirConfig := { target_directory := some "/etc/logs" }

namespace Cleanup

theorem safe_remove_file_dry (failRemove : String → Bool) (fs : List String)
    (p : String) : safe_remove_file failRemove fs p true = (true, fs) := rfl

theorem safe_remove_file_noFail (fs : List String) (p : String) :
    safe_remove_file (fun _ => false) fs p false = (true, fs.erase p) := by
  by_cases h : p ∈ fs
  · simp [safe_remove_file, h]
  · simp [safe_remove_file, h, List.erase_of_not_mem h]

theorem evictLoop_dry_fs (failRemove : String → Bool)
    (l : List IndexEntry) : ∀ fs, (evictLoop failRemove true fs l).fs = fs := by
  induction l with
  | nil => intro fs; rfl
  | cons e rest ih =>
    intro fs
    simp only [evictLoop, safe_remove_file_dry]
    split <;> simpa using ih fs

theorem quotaLoop_dry_fs (failRemove : String → Bool) (l : List IndexEntry) :
    ∀ fs s, (quotaLoop failRemove true fs s l).fs = fs := by
  induction l with
  | nil => intro fs s; rfl
  | cons e rest ih =>
    intro fs s
    simp only [quotaLoop, safe_remove_file_dry]
    split
    · rfl
    · split <;> simpa using ih fs _

theorem evictLoop_noFail (l : List IndexEntry) : ∀ fs,
    evictLoop (fun _ => false) false fs l =
      ⟨l.foldl (fun f e => f.erase e.path) fs, l.length,
        (l.map (·.size)).sum, l.map (·.path)⟩ := by
  induction l with
  | nil => intro fs; rfl
  | cons e rest ih =>
    intro fs
    simp only [evictLoop, safe_remove_file_noFail, ih, List.foldl_cons,
      List.length_cons, List.map_cons, List.sum_cons]
    simp [Nat.add_comm]

end Cleanup

namespace Cleanup

theorem mem_foldl_erase (ps : List String) : ∀ (fs : List String), fs.Nodup →
    ∀ x, x ∈ ps.foldl (fun f p => f.erase p) fs ↔ (x ∈ fs ∧ x ∉ ps) := by
  induction ps with
  | nil => intro fs _ x; simp
  | cons p ps ih =>
    intro fs h x
    rw [List.foldl_cons, ih _ (h.erase p), List.Nodup.mem_erase_iff h]
    simp only [List.mem_cons]
    tauto

theorem remove_paths_from_index_eq_filter (ps : List String) :
    ∀ (index : List IndexEntry),
      remove_paths_from_index index ps =
        index.filter (fun e => !ps.contains e.path) := by
  induction ps with
  | nil => intro index; simp [remove_paths_from_index]
  | cons p ps ih =>
    intro index
    have step : remove_paths_from_index index (p :: ps) =
        remove_paths_from_index (index.filter (fun e => e.path != p)) ps := rfl
    rw [step, ih, List.filter_filter]
    apply List.filter_congr
    intro e _
    by_cases h1 : e.path = p <;> by_cases h2 : e.path ∈ ps <;>
      simp [h1, h2, List.contains_cons]

theorem path_mem_selectOlder_iff {index : List IndexEntry}
    (h : (index.map (·.path)).Nodup) {e : IndexEntry} (he : e ∈ index)
    (t : String) (c : Int) :
    e.path ∈ (selectOlder index t c).map (·.path) ↔
      (e.target_directory = t ∧ e.mtime < c) := by
  constructor
  · intro hm
    obtain ⟨e', he', hpe⟩ := List.mem_map.mp hm
    have he'i : e' ∈ index := List.mem_of_mem_filter he'
    have hee : e' = e := List.inj_on_of_nodup_map h he'i he hpe
    have := (List.mem_filter.mp he').2
    rw [hee] at this
    simpa using this
  · rintro ⟨h1, h2⟩
    exact List.mem_map_of_mem _ (List.mem_filter.mpr ⟨he, by simp [h1, h2]⟩)

end Cleanup

namespace Cleanup

theorem foldl_erase_entries (l : List IndexEntry) (fs : List String) :
    l.foldl (fun f e => f.erase e.path) fs =
      (l.map (·.path)).foldl (fun f p => f.erase p) fs := by
  rw [List.foldl_map]

theorem contains_path_eq_cond {index : List IndexEntry}
    (h : (index.map (·.path)).Nodup) {e : IndexEntry} (he : e ∈ index)
    (t : String) (c : Int) :
    ((selectOlder index t c).map (·.path)).contains e.path =
      (e.target_directory == t && decide (e.mtime < c)) := by
  rw [Bool.eq_iff_iff]
  simp only [List.elem_iff, Bool.and_eq_true, beq_iff_eq, decide_eq_true_eq]
  exact path_mem_selectOlder_iff h he t c

end Cleanup

open Cleanup Indexer PidLock Api in
/-- C1: under the age policy with `remove=true` and every physical deletion
succeeding, the run leaves no index entry for the target with
`mtime < cutoff`, removes from the index exactly the selected entries (so
files deleted and entries dropped correspond one-to-one, no orphans either
way), and the summary reports status `success` with their count and bytes. -/
theorem C1_age_policy_index_sync
    (st : Cleanup.EvictState) (target_path : String) (now max_days : Int)
    (hidx : (st.index.map (·.path)).Nodup) (hfs : st.fs.Nodup)
    (r : Cleanup.EvictState × Cleanup.Summary)
    (hr : r = Cleanup.cleanup_directory_by_age true (fun _ => false) st
      target_path now max_days false) :
    (r.1.index = st.index.filter (fun e =>
        !(e.target_directory == target_path &&
          decide (e.mtime < now - max_days * Cleanup.SECONDS_IN_A_DAY)))) ∧
    (∀ e ∈ r.1.index, e.target_directory = target_path →
        now - max_days * Cleanup.SECONDS_IN_A_DAY ≤ e.mtime) ∧
    (∀ p, p ∈ r.1.fs ↔ (p ∈ st.fs ∧
        p ∉ (Cleanup.selectOlder st.index target_path
          (now - max_days * Cleanup.SECONDS_IN_A_DAY)).map (·.path))) ∧
    r.1.history = st.history ∧
    r.2.status = "success" ∧
    r.2.files_removed_by_age = (Cleanup.selectOlder st.index target_path
        (now - max_days * Cleanup.SECONDS_IN_A_DAY)).length ∧
    r.2.files_removed_by_size = 0 ∧
    r.2.bytes_removed_total = ((Cleanup.selectOlder st.index target_path
        (now - max_days * Cleanup.SECONDS_IN_A_DAY)).map (·.size)).sum := by
  subst hr
  simp only [cleanup_directory_by_age, Bool.not_true, Bool.false_eq_true,
    if_false, evictLoop_noFail]
  set c := now - max_days * SECONDS_IN_A_DAY with hc
  refine ⟨?_, ?_, ?_, trivial, trivial, trivial, trivial, trivial⟩
  · rw [remove_paths_from_index_eq_filter]
    apply List.filter_congr
    intro e he
    rw [contains_path_eq_cond hidx he target_path c]
  · intro e hmem htgt
    by_contra hlt
    push_neg at hlt
    rw [remove_paths_from_index_eq_filter] at hmem
    have h2 := (List.mem_filter.mp hmem).2
    rw [contains_path_eq_cond hidx (List.mem_of_mem_filter hmem) target_path c] at h2
    simp [htgt, hlt] at h2
  · intro p
    rw [foldl_erase_entries]
    exact mem_foldl_erase _ st.fs hfs p



open Cleanup in
/-- Witness for C1 at a concrete state. -/
theorem C1_age_policy_index_sync_witness :
    ((c1st.index.map (·.path)).Nodup ∧ c1st.fs.Nodup) ∧
    (let r := Cleanup.cleanup_directory_by_age true (fun _ => false) c1st
        "/d" 10 0 false
     (r.1.index = c1st.index.filter (fun e =>
        !(e.target_directory == "/d" &&
          decide (e.mtime < 10 - 0 * Cleanup.SECONDS_IN_A_DAY)))) ∧
     (∀ e ∈ r.1.index, e.target_directory = "/d" →
        10 - 0 * Cleanup.SECONDS_IN_A_DAY ≤ e.mtime) ∧
     (∀ p, p ∈ r.1.fs ↔ (p ∈ c1st.fs ∧
        p ∉ (Cleanup.selectOlder c1st.index "/d"
          (10 - 0 * Cleanup.SECONDS_IN_A_DAY)).map (·.path))) ∧
     r.1.history = c1st.history ∧
     r.2.status = "success" ∧
     r.2.files_removed_by_age = (Cleanup.selectOlder c1st.index "/d"
        (10 - 0 * Cleanup.SECONDS_IN_A_DAY)).length ∧
     r.2.files_removed_by_size = 0 ∧
     r.2.bytes_removed_total = ((Cleanup.selectOlder c1st.index "/d"
        (10 - 0 * Cleanup.SECONDS_IN_A_DAY)).map (·.size)).sum) :=
  ⟨⟨by decide, by decide⟩,
    C1_age_policy_index_sync c1st "/d" 10 0 (by decide) (by decide) _ rfl⟩

namespace Cleanup

theorem quotaLoop_noFail (l : List IndexEntry) : ∀ (fs : List String) (s : Int),
    ∃ k, k ≤ l.length ∧
      quotaLoop (fun _ => false) false fs s l =
        ⟨(l.take k).foldl (fun f e => f.erase e.path) fs, k,
          ((l.take k).map (·.size)).sum, (l.take k).map (·.path)⟩ ∧
      (s ≤ ((((l.take k).map (·.size)).sum : Nat) : Int) ∨ k = l.length) := by
  induction l with
  | nil =>
    intro fs s
    exact ⟨0, by simp, rfl, Or.inr rfl⟩
  | cons e rest ih =>
    intro fs s
    by_cases hs : s ≤ 0
    · refine ⟨0, by simp, ?_, Or.inl (by simpa using hs)⟩
      simp [quotaLoop, hs]
    · obtain ⟨k, hk, heq, hcond⟩ := ih (fs.erase e.path) (s - (e.size : Int))
      refine ⟨k + 1, by simpa using hk, ?_, ?_⟩
      · simp only [quotaLoop, if_neg hs, safe_remove_file_noFail, heq,
          List.take_succ_cons, List.foldl_cons, List.map_cons, List.sum_cons]
        simp [Nat.add_comm]
      · rcases hcond with h | h
        · left
          simp only [List.take_succ_cons, List.map_cons, List.sum_cons]
          push_cast at h ⊢
          omega
        · right
          simp [h]

theorem filter_swap {α : Type} (p q : α → Bool) (l : List α) :
    (l.filter p).filter q = (l.filter q).filter p := by
  rw [List.filter_filter, List.filter_filter]
  apply List.filter_congr
  intro a _
  rw [Bool.and_comm]

theorem removeOld_index_eq {index : List IndexEntry}
    (hidx : (index.map (·.path)).Nodup) (t : String) (c : Int) :
    remove_paths_from_index index ((selectOlder index t c).map (·.path)) =
      index.filter (fun e =>
        !(e.target_directory == t && decide (e.mtime < c))) := by
  rw [remove_paths_from_index_eq_filter]
  apply List.filter_congr
  intro e he
  rw [contains_path_eq_cond hidx he t c]

theorem selectNewer_of_filterOld (index : List IndexEntry) (t : String) (c : Int) :
    selectNewer (index.filter (fun e =>
        !(e.target_directory == t && decide (e.mtime < c)))) t c =
      selectNewer index t c := by
  unfold selectNewer
  rw [List.filter_filter]
  apply List.filter_congr
  intro e _
  by_cases h1 : e.target_directory = t <;> by_cases h2 : c ≤ e.mtime <;>
    simp [h1, h2, not_le.mpr, (by omega : c ≤ e.mtime → ¬ (e.mtime < c))]

theorem selectNewer_filter_q (index : List IndexEntry) (t : String) (c : Int)
    (q : IndexEntry → Bool) :
    selectNewer (index.filter q) t c = (selectNewer index t c).filter q := by
  unfold selectNewer
  exact filter_swap _ _ index

end Cleanup

namespace Cleanup

theorem sortByMtime_perm (l : List IndexEntry) : (sortByMtime l).Perm l :=
  List.perm_insertionSort _ l

theorem sortByMtime_sorted (l : List IndexEntry) :
    List.Sorted (fun a b => a.mtime ≤ b.mtime) (sortByMtime l) := by
  haveI : IsTotal IndexEntry (fun a b => a.mtime ≤ b.mtime) :=
    ⟨fun a b => le_total _ _⟩
  haveI : IsTrans IndexEntry (fun a b => a.mtime ≤ b.mtime) :=
    ⟨fun _ _ _ h1 h2 => le_trans h1 h2⟩
  exact List.sorted_insertionSort _ l

theorem sorted_filter_take_eq_drop (l : List IndexEntry) (k : Nat)
    (h : (l.map (·.path)).Nodup) :
    l.filter (fun e => !(((l.take k).map (·.path)).contains e.path)) =
      l.drop k := by
  set T := l.take k with hT
  set D := l.drop k with hD
  have hsplit : l = T ++ D := (List.take_append_drop k l).symm
  rw [hsplit] at h ⊢
  rw [List.filter_append]
  have h1 : T.filter (fun e => !((T.map (·.path)).contains e.path)) = [] := by
    rw [List.filter_eq_nil_iff]
    intro e he
    have hc : (T.map (·.path)).contains e.path = true :=
      List.elem_iff.mpr (List.mem_map_of_mem _ he)
    rw [hc]
    simp
  have h2 : D.filter (fun e => !((T.map (·.path)).contains e.path)) = D := by
    rw [List.filter_eq_self]
    intro e he
    have hN : (T.map (·.path) ++ D.map (·.path)).Nodup := by
      rw [← List.map_append]; exact h
    have hdis := (List.nodup_append.mp hN).2.2
    have hnotin : e.path ∉ T.map (·.path) :=
      fun hmem => hdis hmem (List.mem_map_of_mem _ he)
    have hc2 : (T.map (·.path)).contains e.path = false := by
      rw [Bool.eq_false_iff]
      intro hcon
      exact hnotin (List.elem_iff.mp hcon)
    rw [hc2]
    rfl
  rw [h1, h2, List.nil_append]

end Cleanup

namespace Cleanup

theorem remove_paths_append (index : List IndexEntry) (ps qs : List String) :
    remove_paths_from_index index (ps ++ qs) =
      remove_paths_from_index (remove_paths_from_index index ps) qs := by
  unfold remove_paths_from_index
  rw [List.foldl_append]

theorem selectNewer_map_path_nodup {index : List IndexEntry}
    (hidx : (index.map (·.path)).Nodup) (t : String) (c : Int) :
    ((selectNewer index t c).map (·.path)).Nodup :=
  ((List.filter_sublist index).map (·.path)).nodup hidx

end Cleanup

open Cleanup in
/-- C2: under the quota policy with `remove=true` and every physical
deletion succeeding, phase 2 runs only when the summed size of the
`mtime ≥ cutoff` rows exceeds `max_bytes`; it walks those rows in an
mtime-ascending order and deletes a prefix of it (the oldest rows),
stopping at the budget or at exhaustion, so afterwards the target's
remaining `mtime ≥ cutoff` rows sum to at most `max_bytes` or are gone. -/
theorem C2_quota_policy_trims_to_budget
    (st : Cleanup.EvictState) (target_path : String)
    (now max_bytes max_file_age_days : Int)
    (hidx : (st.index.map (·.path)).Nodup)
    (r : Cleanup.EvictState × Cleanup.Summary)
    (hr : r = Cleanup.cleanup_directory_by_size true (fun _ => false) st
      target_path now max_bytes max_file_age_days false) :
    (((((Cleanup.selectNewer st.index target_path
          (now - max_file_age_days * Cleanup.SECONDS_IN_A_DAY)).map (·.size)).sum : Nat) : Int)
        ≤ max_bytes → r.2.files_removed_by_size = 0) ∧
    List.Sorted (fun a b => a.mtime ≤ b.mtime)
      (Cleanup.sortByMtime (Cleanup.selectNewer st.index target_path
        (now - max_file_age_days * Cleanup.SECONDS_IN_A_DAY))) ∧
    (Cleanup.sortByMtime (Cleanup.selectNewer st.index target_path
        (now - max_file_age_days * Cleanup.SECONDS_IN_A_DAY))).Perm
      (Cleanup.selectNewer st.index target_path
        (now - max_file_age_days * Cleanup.SECONDS_IN_A_DAY)) ∧
    (∃ k, r.2.files_removed_by_size = k ∧
      r.1.index = (st.index.filter (fun e =>
          !(e.target_directory == target_path &&
            decide (e.mtime < now - max_file_age_days * Cleanup.SECONDS_IN_A_DAY)))).filter
        (fun e =>
          !((((Cleanup.sortByMtime (Cleanup.selectNewer st.index target_path
              (now - max_file_age_days * Cleanup.SECONDS_IN_A_DAY))).take k).map
                (·.path)).contains e.path))) ∧
    (((((Cleanup.selectNewer r.1.index target_path
          (now - max_file_age_days * Cleanup.SECONDS_IN_A_DAY)).map (·.size)).sum : Nat) : Int)
        ≤ max_bytes ∨
      Cleanup.selectNewer r.1.index target_path
          (now - max_file_age_days * Cleanup.SECONDS_IN_A_DAY) = []) := by
  subst hr
  simp only [cleanup_directory_by_size, Bool.not_true, Bool.false_eq_true,
    if_false, evictLoop_noFail]
  set c := now - max_file_age_days * SECONDS_IN_A_DAY with hc
  set newE := selectNewer st.index target_path c with hnew
  set oldE := selectOlder st.index target_path c with hold
  set total : Nat := (newE.map (·.size)).sum with htot
  have hsorted := sortByMtime_sorted newE
  have hperm := sortByMtime_perm newE
  set sorted := sortByMtime newE with hsrt
  have hnodupNew : (newE.map (·.path)).Nodup :=
    selectNewer_map_path_nodup hidx target_path c
  have hnodupSorted : (sorted.map (·.path)).Nodup :=
    ((hperm.map (·.path)).nodup_iff).mpr hnodupNew
  by_cases hle : (total : Int) ≤ max_bytes
  · rw [if_pos hle]
    refine ⟨fun _ => rfl, hsorted, hperm, ⟨0, rfl, ?_⟩, Or.inl ?_⟩
    · rw [removeOld_index_eq hidx]
      simp
    · have hseq : selectNewer (remove_paths_from_index st.index
          (oldE.map (·.path))) target_path c = newE := by
        rw [hold, removeOld_index_eq hidx, hnew, selectNewer_of_filterOld]
      simp only [hseq]
      exact hle
  · rw [if_neg hle]
    obtain ⟨k, hk, heq, hcond⟩ := quotaLoop_noFail sorted
      (oldE.foldl (fun f e => f.erase e.path) st.fs) ((total : Int) - max_bytes)
    rw [heq]
    have hidxeq : remove_paths_from_index st.index
        (oldE.map (·.path) ++ (sorted.take k).map (·.path)) =
        (st.index.filter (fun e =>
          !(e.target_directory == target_path && decide (e.mtime < c)))).filter
        (fun e => !(((sorted.take k).map (·.path)).contains e.path)) := by
      rw [remove_paths_append, hold, removeOld_index_eq hidx,
        remove_paths_from_index_eq_filter]
    refine ⟨fun habs => absurd habs hle, hsorted, hperm, ⟨k, rfl, hidxeq⟩, ?_⟩
    have hrem : selectNewer ((st.index.filter (fun e =>
          !(e.target_directory == target_path && decide (e.mtime < c)))).filter
        (fun e => !(((sorted.take k).map (·.path)).contains e.path)))
        target_path c =
        newE.filter (fun e => !(((sorted.take k).map (·.path)).contains e.path)) := by
      rw [selectNewer_filter_q, selectNewer_of_filterOld]
    rw [hidxeq, hrem]
    have hpermRem : (sorted.filter (fun e =>
        !(((sorted.take k).map (·.path)).contains e.path))).Perm
        (newE.filter (fun e =>
          !(((sorted.take k).map (·.path)).contains e.path))) :=
      hperm.filter _
    rw [sorted_filter_take_eq_drop sorted k hnodupSorted] at hpermRem
    have hsum : ((newE.filter (fun e =>
        !(((sorted.take k).map (·.path)).contains e.path))).map (·.size)).sum =
        ((sorted.drop k).map (·.size)).sum :=
      (hpermRem.symm.map (·.size)).sum_eq
    rcases hcond with hs | hkl
    · left
      rw [hsum]
      have htotal : (sorted.map (·.size)).sum = total :=
        (hperm.map (·.size)).sum_eq
      have hsplit : ((sorted.take k).map (·.size)).sum +
          ((sorted.drop k).map (·.size)).sum = total := by
        rw [List.map_take, List.map_drop, List.sum_take_add_sum_drop, htotal]
      omega
    · right
      have hdrop : sorted.drop k = [] := by
        rw [hkl]; exact List.drop_length _
      rw [hdrop] at hpermRem
      exact hpermRem.symm.eq_nil



open Cleanup in
/-- Witness for C2 at a concrete state. -/
theorem C2_quota_policy_trims_to_budget_witness :
    (c2st.index.map (·.path)).Nodup ∧
    (let r := Cleanup.cleanup_directory_by_size true (fun _ => false) c2st
        "/d" 0 15 30 false
     (((((Cleanup.selectNewer c2st.index "/d"
          (0 - 30 * Cleanup.SECONDS_IN_A_DAY)).map (·.size)).sum : Nat) : Int)
        ≤ 15 → r.2.files_removed_by_size = 0) ∧
     List.Sorted (fun a b => a.mtime ≤ b.mtime)
      (Cleanup.sortByMtime (Cleanup.selectNewer c2st.index "/d"
        (0 - 30 * Cleanup.SECONDS_IN_A_DAY))) ∧
     (Cleanup.sortByMtime (Cleanup.selectNewer c2st.index "/d"
        (0 - 30 * Cleanup.SECONDS_IN_A_DAY))).Perm
      (Cleanup.selectNewer c2st.index "/d"
        (0 - 30 * Cleanup.SECONDS_IN_A_DAY)) ∧
     (∃ k, r.2.files_removed_by_size = k ∧
      r.1.index = (c2st.index.filter (fun e =>
          !(e.target_directory == "/d" &&
            decide (e.mtime < 0 - 30 * Cleanup.SECONDS_IN_A_DAY)))).filter
        (fun e =>
          !((((Cleanup.sortByMtime (Cleanup.selectNewer c2st.index "/d"
              (0 - 30 * Cleanup.SECONDS_IN_A_DAY))).take k).map
                (·.path)).contains e.path))) ∧
     (((((Cleanup.selectNewer r.1.index "/d"
          (0 - 30 * Cleanup.SECONDS_IN_A_DAY)).map (·.size)).sum : Nat) : Int)
        ≤ 15 ∨
      Cleanup.selectNewer r.1.index "/d"
          (0 - 30 * Cleanup.SECONDS_IN_A_DAY) = [])) :=
  ⟨by decide,
    C2_quota_policy_trims_to_budget c2st "/d" 0 15 30 (by decide) _ rfl⟩

namespace Cleanup

theorem cleanup_directory_by_age_dry (dbOk : Bool) (fr : String → Bool)
    (st : EvictState) (t : String) (now d : Int) :
    (cleanup_directory_by_age dbOk fr st t now d true).1 = st := by
  cases st
  cases dbOk <;> simp [cleanup_directory_by_age, evictLoop_dry_fs]

theorem cleanup_directory_by_size_dry (dbOk : Bool) (fr : String → Bool)
    (st : EvictState) (t : String) (now mb d : Int) :
    (cleanup_directory_by_size dbOk fr st t now mb d true).1 = st := by
  cases st
  cases dbOk <;>
    simp only [cleanup_directory_by_size, Bool.not_true, Bool.not_false,
      Bool.false_eq_true, if_false, if_true]
  split <;> simp [evictLoop_dry_fs, quotaLoop_dry_fs]

end Cleanup

namespace Indexer

mutual
theorem pruneTree_dry (N d : Nat) :
    (t : DirTree) → (pruneTree N true d t).1 = t
  | .node files sub => by
    simp only [pruneTree, pruneForest_dry N (d + 1) sub]
theorem pruneForest_dry (N d : Nat) :
    (f : DirForest) → (pruneForest N true d f).1 = f
  | .nil => rfl
  | .cons name t rest => by
    simp only [pruneForest]
    split
    · simp [pruneForest_dry N d rest]
    · simp [pruneTree_dry N d t, pruneForest_dry N d rest]
end

theorem remove_deep_directories_dry (max_depth : Option Nat) (t : DirTree) :
    (remove_deep_directories max_depth true t).1 = t := by
  cases max_depth with
  | none => rfl
  | some n => exact pruneTree_dry n 0 t

end Indexer

open Cleanup Indexer in
/-- C3 (amended): with `remove=false` the two eviction policies never
mutate the filesystem, the index or the history — so any number of
repeated dry-runs equals zero runs — and the scanner's depth pruning is
likewise simulation-only.  (The scanner's index refresh itself is NOT
gated on `remove`; see the counterexample.) -/
theorem C3_dry_run_leaves_state_unchanged :
    (∀ (dbOk : Bool) (fr : String → Bool) (st : Cleanup.EvictState)
        (t : String) (now d : Int),
      (Cleanup.cleanup_directory_by_age dbOk fr st t now d true).1 = st) ∧
    (∀ (dbOk : Bool) (fr : String → Bool) (st : Cleanup.EvictState)
        (t : String) (now mb d : Int),
      (Cleanup.cleanup_directory_by_size dbOk fr st t now mb d true).1 = st) ∧
    (∀ (dbOk : Bool) (fr : String → Bool) (st : Cleanup.EvictState)
        (t : String) (now d : Int) (n : Nat),
      (fun s => (Cleanup.cleanup_directory_by_age dbOk fr s t now d true).1)^[n] st = st) ∧
    (∀ (dbOk : Bool) (fr : String → Bool) (st : Cleanup.EvictState)
        (t : String) (now mb d : Int) (n : Nat),
      (fun s => (Cleanup.cleanup_directory_by_size dbOk fr s t now mb d true).1)^[n] st = st) ∧
    (∀ (max_depth : Option Nat) (t : Indexer.DirTree),
      (Indexer.remove_deep_directories max_depth true t).1 = t) ∧
    (∀ (dbOk : Bool) (target_path : String) (max_depth : Option Nat)
        (st : Indexer.ScanState),
      (Indexer.scanTarget dbOk target_path max_depth true st).1.tree = st.tree) := by
  refine ⟨cleanup_directory_by_age_dry, cleanup_directory_by_size_dry,
    ?_, ?_, remove_deep_directories_dry, ?_⟩
  · intro dbOk fr st t now d n
    exact Function.iterate_fixed (cleanup_directory_by_age_dry dbOk fr st t now d) n
  · intro dbOk fr st t now mb d n
    exact Function.iterate_fixed (cleanup_directory_by_size_dry dbOk fr st t now mb d) n
  · intro dbOk target_path max_depth st
    simp [Indexer.scanTarget, remove_deep_directories_dry]



/-- C3 counterexample: a scan run with `remove=false` (dry-run) still
rewrites the target's index rows — here it deletes the stale row — so the
claim that no pipeline operation under `remove=false` ever changes the
index row set is false. -/
theorem C3_counterexample_dry_scan_rewrites_index :
    (Indexer.scanTarget true "/d" none true c3st).1.index ≠ c3st.index := by
  decide

/-- C4 counterexample: the claim says a path normalizing to `/` is always
protected, but with protected roots `["/etc"]` the code returns `false`
for `/` — the `protected == "/"` arm fires only when `/` itself is among
the configured roots. -/
theorem C4_counterexample_root_not_protected :
    Cleanup.is_path_protected ["/etc"] (some "/") = false := by decide

open Cleanup in
/-- C4 (amended): `is_path_protected` fails closed on normalization
failure, and on a normalized path returns true exactly when some
configured root matches it — the root `/` matches only the path `/`
itself, any other root matches by equality or by path-segment-wise
descent (`root ++ "/"` prefix, not a naive string prefix). The spec's
examples hold, including the non-naive `/etcetera` case. -/
theorem C4_amended_path_guard :
    (∀ prot : List String, Cleanup.is_path_protected prot none = true) ∧
    (∀ (prot : List String) (abs_p : String),
      Cleanup.is_path_protected prot (some abs_p) = true ↔
        ∃ p ∈ prot, (p = "/" ∧ abs_p = "/") ∨
          (p ≠ "/" ∧ (abs_p = p ∨
            (p ++ "/").data.isPrefixOf abs_p.data = true))) ∧
    Cleanup.is_path_protected ["/etc", "/var"] (some "/etc/foo") = true ∧
    Cleanup.is_path_protected ["/etc", "/var"] (some "/home/user/data") = false ∧
    Cleanup.is_path_protected ["/etc"] (some "/etcetera") = false ∧
    Cleanup.is_path_protected ["/"] (some "/") = true ∧
    Cleanup.is_path_protected ["/"] (some "/anything") = false := by
  refine ⟨fun _ => rfl, ?_, by decide, by decide, by decide, by decide, by decide⟩
  intro prot abs_p
  simp only [is_path_protected, List.any_eq_true, Bool.or_eq_true,
    Bool.and_eq_true, beq_iff_eq, bne_iff_ne]

namespace Indexer

theorem foldl_insert_entries {α : Type} (g : α → Cleanup.IndexEntry)
    (es : List α) : ∀ (index : List Cleanup.IndexEntry),
      (es.map (fun a => SqlStmt.insertEntry (g a))).foldl applyStmt index =
        index ++ es.map g := by
  induction es with
  | nil => intro index; simp
  | cons e rest ih =>
    intro index
    simp only [List.map_cons, List.foldl_cons, applyStmt]
    rw [ih]
    simp

end Indexer

open Indexer in
/-- C5: the per-target index refresh is one atomic delete-then-insert
unit: any failure (file-enumeration exception or database error) reports
the scan failed and leaves the pre-existing rows untouched — never a
half-populated target — while success replaces exactly the target's rows
with the freshly enumerated entries, other targets' rows untouched. -/
theorem C5_scan_refresh_is_atomic :
    (∀ (target_path err : String) (index : List Cleanup.IndexEntry)
        (dbOk : Bool),
      Indexer.run_indexing dbOk target_path (.error err) index =
        (false, index)) ∧
    (∀ (target_path : String) (files : List (Int × Nat × String))
        (index : List Cleanup.IndexEntry),
      Indexer.run_indexing false target_path (.ok files) index =
        (false, index)) ∧
    (∀ (target_path : String) (files : List (Int × Nat × String))
        (index : List Cleanup.IndexEntry),
      Indexer.run_indexing true target_path (.ok files) index =
        (true, index.filter (fun e => e.target_directory != target_path) ++
          files.map (fun f =>
            { target_directory := target_path, path := f.2.2,
              mtime := f.1, size := f.2.1 }))) := by
  refine ⟨fun _ _ _ _ => rfl, fun _ _ _ => rfl, ?_⟩
  intro target_path files index
  simp only [run_indexing, Bool.not_true, Bool.false_eq_true, if_false,
    indexingStmts, List.foldl_cons, applyStmt]
  rw [foldl_insert_entries (fun f : Int × Nat × String =>
    ({ target_directory := target_path, path := f.2.2, mtime := f.1,
       size := f.2.1 } : Cleanup.IndexEntry))]

namespace Indexer



mutual
theorem allFilesFrom_depth_le (p : String) (d : Nat) :
    (t : DirTree) → ∀ q ∈ allFilesFrom p d t, d ≤ q.1
  | .node files sub => by
    intro q hq
    simp only [allFilesFrom, List.mem_append] at hq
    rcases hq with h | h
    · obtain ⟨f, _, rfl⟩ := List.mem_map.mp h
      exact le_refl d
    · exact le_of_lt (allFilesForest_depth_lt p d sub q h)
theorem allFilesForest_depth_lt (p : String) (d : Nat) :
    (f : DirForest) → ∀ q ∈ allFilesForest p d f, d < q.1
  | .nil => by intro q hq; simp [allFilesForest] at hq
  | .cons name t rest => by
    intro q hq
    simp only [allFilesForest, List.mem_append] at hq
    rcases hq with h | h
    · exact Nat.lt_of_lt_of_le (Nat.lt_succ_self d)
        (allFilesFrom_depth_le (p ++ "/" ++ name) (d + 1) t q h)
    · exact allFilesForest_depth_lt p d rest q h
end

end Indexer

namespace Indexer

mutual
theorem walkFiles_eq_filter (N : Nat) (p : String) (d : Nat) :
    (t : DirTree) → walkFiles N p d t =
      ((allFilesFrom p d t).filter (fun q => decide (q.1 ≤ N))).map dropDepth
  | .node files sub => by
    by_cases hd : d > N
    · have hlhs : walkFiles N p d (.node files sub) = [] := by
        simp [walkFiles, hd]
      have hfil : (allFilesFrom p d (.node files sub)).filter
          (fun q => decide (q.1 ≤ N)) = [] := by
        rw [List.filter_eq_nil_iff]
        intro q hq
        have := allFilesFrom_depth_le p d (.node files sub) q hq
        simp only [decide_eq_true_eq]
        omega
      rw [hlhs, hfil]
      rfl
    · simp only [walkFiles, allFilesFrom, if_neg hd, List.filter_append,
        List.map_append]
      congr 1
      · have hkeep : (files.map (fun f =>
            (d, f.mtime, f.size, p ++ "/" ++ f.name))).filter
              (fun q => decide (q.1 ≤ N)) =
            files.map (fun f => (d, f.mtime, f.size, p ++ "/" ++ f.name)) := by
          rw [List.filter_eq_self]
          intro q hq
          obtain ⟨f, _, rfl⟩ := List.mem_map.mp hq
          simp only [decide_eq_true_eq]
          omega
        rw [hkeep, List.map_map]
        rfl
      · exact walkForest_eq_filter N p d sub
theorem walkForest_eq_filter (N : Nat) (p : String) (d : Nat) :
    (f : DirForest) → walkForest N p d f =
      ((allFilesForest p d f).filter (fun q => decide (q.1 ≤ N))).map dropDepth
  | .nil => rfl
  | .cons name t rest => by
    simp only [walkForest, allFilesForest, List.filter_append, List.map_append]
    rw [walkFiles_eq_filter N (p ++ "/" ++ name) (d + 1) t,
      walkForest_eq_filter N p d rest]
end

end Indexer

namespace Indexer

mutual
theorem pruneTree_files (N : Nat) (p : String) (d : Nat) (hd : d ≤ N) :
    (t : DirTree) → allFilesFrom p d (pruneTree N false d t).1 =
      (allFilesFrom p d t).filter (fun q => decide (q.1 ≤ N))
  | .node files sub => by
    simp only [pruneTree, allFilesFrom, List.filter_append]
    congr 1
    · symm
      rw [List.filter_eq_self]
      intro q hq
      obtain ⟨f, _, rfl⟩ := List.mem_map.mp hq
      simp only [decide_eq_true_eq]
      omega
    · exact pruneForest_files N p d sub
theorem pruneForest_files (N : Nat) (p : String) (d : Nat) :
    (f : DirForest) → allFilesForest p d (pruneForest N false (d + 1) f).1 =
      (allFilesForest p d f).filter (fun q => decide (q.1 ≤ N))
  | .nil => rfl
  | .cons name t rest => by
    by_cases hchild : d + 1 > N
    · simp only [pruneForest, if_pos hchild, Bool.false_eq_true, if_false]
      rw [pruneForest_files N p d rest]
      symm
      simp only [allFilesForest, List.filter_append]
      have hhead : (allFilesFrom (p ++ "/" ++ name) (d + 1) t).filter
          (fun q => decide (q.1 ≤ N)) = [] := by
        rw [List.filter_eq_nil_iff]
        intro q hq
        have := allFilesFrom_depth_le (p ++ "/" ++ name) (d + 1) t q hq
        simp only [decide_eq_true_eq]
        omega
      rw [hhead, List.nil_append]
    · simp only [pruneForest, if_neg hchild]
      simp only [allFilesForest, List.filter_append]
      congr 1
      · exact pruneTree_files N (p ++ "/" ++ name) (d + 1) (by omega) t
      · exact pruneForest_files N p d rest
end

mutual
theorem pruneTree_count_dry (N d : Nat) :
    (t : DirTree) → (pruneTree N true d t).2 = (pruneTree N false d t).2
  | .node files sub => by
    simp only [pruneTree]
    exact pruneForest_count_dry N (d + 1) sub
theorem pruneForest_count_dry (N d : Nat) :
    (f : DirForest) → (pruneForest N true d f).2 = (pruneForest N false d f).2
  | .nil => rfl
  | .cons name t rest => by
    by_cases h : d > N <;>
      simp [pruneForest, h, pruneTree_count_dry N d t,
        pruneForest_count_dry N d rest]
end

end Indexer

namespace Indexer

theorem run_indexing_ok (target_path : String)
    (files : List (Int × Nat × String)) (index : List Cleanup.IndexEntry) :
    run_indexing true target_path (.ok files) index =
      (true, index.filter (fun e => e.target_directory != target_path) ++
        files.map (fun f =>
          { target_directory := target_path, path := f.2.2,
            mtime := f.1, size := f.2.1 })) := by
  simp only [run_indexing, Bool.not_true, Bool.false_eq_true, if_false,
    indexingStmts, List.foldl_cons, applyStmt]
  rw [foldl_insert_entries (fun f : Int × Nat × String =>
    ({ target_directory := target_path, path := f.2.2, mtime := f.1,
       size := f.2.1 } : Cleanup.IndexEntry))]

theorem filter_idem {α : Type} (p : α → Bool) (l : List α) :
    (l.filter p).filter p = l.filter p := by
  rw [List.filter_filter]
  apply List.filter_congr
  intro a _
  rw [Bool.and_self]

end Indexer

open Indexer in
/-- C6: scanner depth semantics with the target root at depth 0 (a file's
depth being its directory's): with `max_depth=None` only the root's direct
files are enumerated; with `max_depth=N` the walk yields exactly the files
at depth ≤ N, a non-dry prune deletes from the tree exactly the files
below depth N (whole over-depth subtrees), a dry prune keeps the tree but
reports the same count, and the refreshed index holds the target's entries
exactly for the depth ≤ N files — none below depth N. -/
theorem C6_scan_depth_semantics :
    (∀ (p : String) (t : Indexer.DirTree),
      Indexer.get_file_iterator p none t =
        ((Indexer.allFilesFrom p 0 t).filter
          (fun q => q.1 == 0)).map Indexer.dropDepth) ∧
    (∀ (N : Nat) (p : String) (t : Indexer.DirTree),
      Indexer.get_file_iterator p (some N) t =
        ((Indexer.allFilesFrom p 0 t).filter
          (fun q => decide (q.1 ≤ N))).map Indexer.dropDepth) ∧
    (∀ (N : Nat) (p : String) (t : Indexer.DirTree),
      Indexer.allFilesFrom p 0
          (Indexer.remove_deep_directories (some N) false t).1 =
        (Indexer.allFilesFrom p 0 t).filter (fun q => decide (q.1 ≤ N))) ∧
    (∀ (N : Nat) (t : Indexer.DirTree),
      Indexer.remove_deep_directories (some N) true t =
        (t, (Indexer.remove_deep_directories (some N) false t).2)) ∧
    (∀ (N : Nat) (target_path : String) (t : Indexer.DirTree)
        (index : List Cleanup.IndexEntry),
      (Indexer.scanTarget true target_path (some N) false
          ⟨t, index⟩).1.index =
        index.filter (fun e => e.target_directory != target_path) ++
          (((Indexer.allFilesFrom target_path 0 t).filter
            (fun q => decide (q.1 ≤ N))).map Indexer.dropDepth).map
              (fun f =>
                { target_directory := target_path, path := f.2.2,
                  mtime := f.1, size := f.2.1 })) := by
  refine ⟨?_, ?_, ?_, ?_, ?_⟩
  · intro p t
    match t with
    | .node files sub =>
      simp only [get_file_iterator, iterate_root_files_only, allFilesFrom,
        List.filter_append]
      have hforest : (allFilesForest p 0 sub).filter (fun q => q.1 == 0) = [] := by
        rw [List.filter_eq_nil_iff]
        intro q hq
        have := allFilesForest_depth_lt p 0 sub q hq
        simp only [beq_iff_eq]
        omega
      have hfiles : (files.map (fun f =>
          (0, f.mtime, f.size, p ++ "/" ++ f.name))).filter
            (fun q => q.1 == 0) =
          files.map (fun f => (0, f.mtime, f.size, p ++ "/" ++ f.name)) := by
        rw [List.filter_eq_self]
        intro q hq
        obtain ⟨f, _, rfl⟩ := List.mem_map.mp hq
        simp
      rw [hforest, hfiles, List.append_nil, List.map_map]
      rfl
  · intro N p t
    exact walkFiles_eq_filter N p 0 t
  · intro N p t
    exact pruneTree_files N p 0 (Nat.zero_le N) t
  · intro N t
    have h1 : (Indexer.remove_deep_directories (some N) true t).1 = t :=
      remove_deep_directories_dry (some N) t
    have h2 : (Indexer.remove_deep_directories (some N) true t).2 =
        (Indexer.remove_deep_directories (some N) false t).2 :=
      pruneTree_count_dry N 0 t
    rw [Prod.ext_iff]
    exact ⟨h1, h2⟩
  · intro N target_path t index
    simp only [scanTarget]
    rw [run_indexing_ok]
    simp only [get_file_iterator]
    rw [walkFiles_eq_filter N target_path 0
      (remove_deep_directories (some N) false t).1]
    have hfiles : allFilesFrom target_path 0
        (remove_deep_directories (some N) false t).1 =
        (allFilesFrom target_path 0 t).filter (fun q => decide (q.1 ≤ N)) :=
      pruneTree_files N target_path 0 (Nat.zero_le N) t
    rw [hfiles, filter_idem]

namespace Cleanup

theorem cleanup_directory_by_age_history (dbOk : Bool) (fr : String → Bool)
    (st : EvictState) (t : String) (now d : Int) (dr : Bool) :
    (cleanup_directory_by_age dbOk fr st t now d dr).1.history = st.history := by
  cases dbOk <;> simp [cleanup_directory_by_age]

theorem cleanup_directory_by_size_history (dbOk : Bool) (fr : String → Bool)
    (st : EvictState) (t : String) (now mb d : Int) (dr : Bool) :
    (cleanup_directory_by_size dbOk fr st t now mb d dr).1.history = st.history := by
  cases dbOk <;>
    simp only [cleanup_directory_by_size, Bool.not_true, Bool.not_false,
      Bool.false_eq_true, if_false, if_true]
  split <;> rfl



theorem processTarget_history_skip (dbOk : Bool) (fr : String → Bool)
    (norm : String → Option String) (prot : List String) (now : Int)
    (st : EvictState) (cfg : DirConfig)
    (h : eligible norm prot cfg = none) :
    processTarget dbOk fr norm prot now st cfg = st := by
  obtain ⟨td, mm, mfad, msb, md, rm⟩ := cfg
  cases td with
  | none => rfl
  | some t =>
    by_cases hp : is_path_protected prot (norm t) = true
    · simp [processTarget, hp]
    · simp [eligible, hp] at h

theorem history_after_save (st st' : EvictState) (t : String) (sm : Summary)
    (h : st'.history = st.history) :
    ∃ rec : HistoryRecord, rec.target_directory = t ∧
      (save_history_log st' t sm).history = st.history ++ [rec] :=
  ⟨{ target_directory := t, status := sm.status,
     files_removed_by_age := sm.files_removed_by_age,
     files_removed_by_size := sm.files_removed_by_size,
     bytes_removed_total := sm.bytes_removed_total,
     message := sm.message }, rfl, by simp [save_history_log, h]⟩

theorem processTarget_history_run (dbOk : Bool) (fr : String → Bool)
    (norm : String → Option String) (prot : List String) (now : Int)
    (st : EvictState) (cfg : DirConfig) (t : String)
    (h : eligible norm prot cfg = some t) :
    ∃ rec : HistoryRecord, rec.target_directory = t ∧
      (processTarget dbOk fr norm prot now st cfg).history =
        st.history ++ [rec] := by
  obtain ⟨td, mm, mfad, msb, md, rm⟩ := cfg
  cases td with
  | none => simp [eligible] at h
  | some t' =>
    by_cases hp : is_path_protected prot (norm t') = true
    · simp [eligible, hp] at h
    · have ht : t' = t := by simpa [eligible, hp] using h
      subst ht
      simp only [processTarget, hp, Bool.false_eq_true, if_false]
      by_cases hm1 : ((DirConfig.mk (some t') mm mfad msb md
          rm).monitor_method.getD "size" == "size") = true
      · simp only [hm1, if_true]
        exact history_after_save st _ t' _
          (cleanup_directory_by_size_history dbOk fr st t' now _ _ _)
      · by_cases hm2 : ((DirConfig.mk (some t') mm mfad msb md
            rm).monitor_method.getD "size" == "age") = true
        · simp only [hm1, hm2, Bool.false_eq_true, if_false, if_true]
          exact history_after_save st _ t' _
            (cleanup_directory_by_age_history dbOk fr st t' now _ _)
        · simp only [hm1, hm2, Bool.false_eq_true, if_false]
          exact history_after_save st st t' _ rfl

end Cleanup

namespace Cleanup

theorem run_main_logic_history (dbOk : Bool) (fr : String → Bool)
    (norm : String → Option String) (prot : List String) (now : Int)
    (configs : List DirConfig) : ∀ st : EvictState,
    ∃ recs : List HistoryRecord,
      (run_main_logic dbOk fr norm prot now st configs).history =
        st.history ++ recs ∧
      recs.map (·.target_directory) = eligibleTargets norm prot configs := by
  induction configs with
  | nil =>
    intro st
    exact ⟨[], by simp [run_main_logic, eligibleTargets], by simp [eligibleTargets]⟩
  | cons cfg rest ih =>
    intro st
    have hrun : run_main_logic dbOk fr norm prot now st (cfg :: rest) =
        run_main_logic dbOk fr norm prot now
          (processTarget dbOk fr norm prot now st cfg) rest := rfl
    match helig : eligible norm prot cfg with
    | none =>
      obtain ⟨recs, h1, h2⟩ := ih (processTarget dbOk fr norm prot now st cfg)
      refine ⟨recs, ?_, ?_⟩
      · rw [hrun, h1, processTarget_history_skip dbOk fr norm prot now st cfg helig]
      · rw [h2]
        simp [eligibleTargets, List.filterMap_cons, helig]
    | some t =>
      obtain ⟨rec, hrt, hrec⟩ :=
        processTarget_history_run dbOk fr norm prot now st cfg t helig
      obtain ⟨recs, h1, h2⟩ := ih (processTarget dbOk fr norm prot now st cfg)
      refine ⟨rec :: recs, ?_, ?_⟩
      · rw [hrun, h1, hrec, List.append_assoc]
        rfl
      · simp [eligibleTargets, List.filterMap_cons, helig, hrt, h2]

end Cleanup

open Cleanup in
/-- C7 (amended): per run, every directory config with a
`target_directory` that is not protected gets exactly one appended
HistoryRecord for that target (whatever the policy outcome), history is
append-only, and the records correspond in order to the processed
targets; configs skipped before processing — no `target_directory`, or a
protected target — append no record at all (contrary to the original
claim's "protected path" case). -/
theorem C7_one_history_record_per_processed_target
    (dbOk : Bool) (fr : String → Bool) (norm : String → Option String)
    (prot : List String) (now : Int) (st : Cleanup.EvictState)
    (configs : List Cleanup.DirConfig) :
    ∃ recs : List Cleanup.HistoryRecord,
      (Cleanup.run_main_logic dbOk fr norm prot now st configs).history =
        st.history ++ recs ∧
      recs.map (·.target_directory) =
        Cleanup.eligibleTargets norm prot configs :=
  run_main_logic_history dbOk fr norm prot now configs st



/-- C7 counterexample: a run that processes one config whose target is
protected appends zero HistoryRecords, refuting "exactly one
HistoryRecord per target regardless of outcome (… protected path …)". -/
theorem C7_counterexample_protected_target_writes_no_record :
    ((Cleanup.run_main_logic true (fun _ => false) (fun s => some s) ["/etc"]
        0 ⟨[], [], []⟩ [c7cfg]).history.filter
      (fun h => h.target_directory == "/etc/logs")).length = 0 := by
  decide

/-- C8, evaluated at the failing input: with the cleaner/indexer lock held
by a first instance that wrote PID `123`, a second instance does exit with
code 0 and acquires nothing — but `open(PID_FILE_PATH, "w")` has already
truncated the lock file, erasing the holder's recorded PID, so the shared
lock-file contents are NOT unchanged as the claim states. -/
theorem C8_second_instance_truncates_lock_file :
    PidLock.acquire_pid_lock 456 ⟨true, "123"⟩ = (some 0, ⟨true, ""⟩) ∧
    ("" : String) ≠ "123" ∧
    PidLock.acquire_pid_lock 456 ⟨false, ""⟩ = (none, ⟨true, "456"⟩) := by
  refine ⟨rfl, by decide, rfl⟩

namespace Api

theorem fp_ne_fp_append_tmp (s : String) : s ≠ s ++ ".tmp" := by
  intro h
  have hl := congrArg String.length h
  rw [String.length_append] at hl
  have h4 : (".tmp" : String).length = 4 := rfl
  omega

theorem runOps_touch_only (p q : String) (hpq : q ≠ p) :
    ∀ (ops : List FileOp),
      (∀ op ∈ ops, op = FileOp.openTrunc p ∨
        (∃ s, op = FileOp.writeChunk p s) ∨ op = FileOp.closeF p) →
      ∀ fs : String → Option String, runOps fs ops q = fs q := by
  intro ops
  induction ops with
  | nil => intro _ fs; rfl
  | cons op rest ih =>
    intro hops fs
    have hop := hops op (List.mem_cons_self op rest)
    have hrest : ∀ op ∈ rest, op = FileOp.openTrunc p ∨
        (∃ s, op = FileOp.writeChunk p s) ∨ op = FileOp.closeF p :=
      fun o ho => hops o (List.mem_cons_of_mem op ho)
    have hqp : (q == p) = false := by
      rw [beq_eq_false_iff_ne]
      exact hpq
    rcases hop with h | ⟨s, h⟩ | h <;> subst h <;>
      · show runOps (applyOp fs _) rest q = fs q
        rw [ih hrest]
        simp [applyOp, hqp]

theorem string_foldl_append (cs : List String) :
    ∀ s : String, cs.foldl (fun a b => a ++ b) s =
      s ++ cs.foldl (fun a b => a ++ b) "" := by
  induction cs with
  | nil => intro s; simp
  | cons c rest ih =>
    intro s
    rw [List.foldl_cons, List.foldl_cons, ih (s ++ c), ih ("" ++ c)]
    simp [String.append_assoc]

theorem runOps_chunks (p : String) (cs : List String) :
    ∀ (fs : String → Option String) (s : String), fs p = some s →
      runOps fs (cs.map (FileOp.writeChunk p)) p =
        some (s ++ cs.foldl (fun a b => a ++ b) "") := by
  induction cs with
  | nil =>
    intro fs s h
    simpa [runOps] using h
  | cons c rest ih =>
    intro fs s h
    show runOps (applyOp fs (FileOp.writeChunk p c)) (rest.map _) p = _
    have hstep : applyOp fs (FileOp.writeChunk p c) p = some (s ++ c) := by
      simp [applyOp, h]
    rw [ih _ (s ++ c) hstep, List.foldl_cons, string_foldl_append rest ("" ++ c)]
    simp [String.append_assoc]

end Api

/-- C9 counterexample: reading one policy file and writing one policy file
perform no advisory-lock operation at all (while the global `config.yaml`
load does take a shared lock, shown for contrast) — so the claimed
shared-lock-around-reads / exclusive-lock-around-writes protocol is not
what the code does for policy files. -/
theorem C9_counterexample_policy_io_takes_no_lock :
    ((Api.load_directory_config_ops "directories.d/a.yaml").filter
        (fun op => op.isLockOp)).length = 0 ∧
    ((Api.write_directory_config_ops "directories.d" "a.yaml"
        ["target_directory: /data\n", "remove: true\n"]).filter
      (fun op => op.isLockOp)).length = 0 ∧
    ((Api.load_config_from_yaml_ops "config.yaml").filter
        (fun op => op.isLockOp)).length = 1 := by
  decide

open Api in
/-- C9 (amended): policy reads are plain unlocked open/read/close and
leave the store untouched, and `write_directory_config` takes no lock
either but is atomic towards readers: it writes the whole content to
`file_path + ".tmp"` in the same directory and `os.replace`s it over the
target, so at every intermediate point of the write the target file reads
as its old content, and after the final rename as exactly the full new
content — never a partial file. -/
theorem C9_policy_write_atomic_visibility :
    (∀ (p : String) (fs : String → Option String),
      Api.runOps fs (Api.load_directory_config_ops p) = fs) ∧
    (∀ (dir_path filename : String) (chunks : List String)
        (fs : String → Option String) (k : Nat),
      k < (Api.write_directory_config_ops dir_path filename chunks).length →
        Api.runOps fs ((Api.write_directory_config_ops dir_path filename
            chunks).take k) (dir_path ++ "/" ++ filename) =
          fs (dir_path ++ "/" ++ filename)) ∧
    (∀ (dir_path filename : String) (chunks : List String)
        (fs : String → Option String),
      Api.runOps fs (Api.write_directory_config_ops dir_path filename chunks)
          (dir_path ++ "/" ++ filename) =
        some (chunks.foldl (fun a b => a ++ b) "")) := by
  refine ⟨fun _ _ => rfl, ?_, ?_⟩
  · intro dir_path filename chunks fs k hk
    set fp := dir_path ++ "/" ++ filename with hfp
    set tmp := fp ++ ".tmp" with htmp
    have hops : Api.write_directory_config_ops dir_path filename chunks =
        ([FileOp.openTrunc tmp] ++ chunks.map (FileOp.writeChunk tmp) ++
          [FileOp.closeF tmp]) ++ [FileOp.renameReplace tmp fp] := by
      simp [Api.write_directory_config_ops]
    have hlen : (Api.write_directory_config_ops dir_path filename
        chunks).length = ([FileOp.openTrunc tmp] ++
          chunks.map (FileOp.writeChunk tmp) ++
          [FileOp.closeF tmp]).length + 1 := by
      rw [hops]
      simp
    have hkle : k ≤ ([FileOp.openTrunc tmp] ++
        chunks.map (FileOp.writeChunk tmp) ++ [FileOp.closeF tmp]).length := by
      omega
    rw [hops, List.take_append_of_le_length hkle]
    apply runOps_touch_only tmp fp (fp_ne_fp_append_tmp fp)
    intro op hop
    have hmem := List.take_subset k _ hop
    simp only [List.mem_append, List.mem_singleton, List.mem_map,
      List.mem_cons, List.not_mem_nil, or_false] at hmem
    rcases hmem with (h | ⟨s, _, h⟩) | h
    · exact Or.inl h.symm.symm
    · exact Or.inr (Or.inl ⟨s, h.symm⟩)
    · exact Or.inr (Or.inr h)
  · intro dir_path filename chunks fs
    set fp := dir_path ++ "/" ++ filename with hfp
    set tmp := fp ++ ".tmp" with htmp
    have hops : Api.write_directory_config_ops dir_path filename chunks =
        (FileOp.openTrunc tmp :: chunks.map (FileOp.writeChunk tmp)) ++
          [FileOp.closeF tmp, FileOp.renameReplace tmp fp] := by
      simp [Api.write_directory_config_ops]
    rw [hops]
    show (((FileOp.openTrunc tmp :: chunks.map (FileOp.writeChunk tmp)) ++
      [FileOp.closeF tmp, FileOp.renameReplace tmp fp]).foldl applyOp fs) fp = _
    have hmid : (chunks.map (FileOp.writeChunk tmp)).foldl applyOp
        (applyOp fs (FileOp.openTrunc tmp)) tmp =
        some ("" ++ chunks.foldl (fun a b => a ++ b) "") := by
      apply runOps_chunks tmp chunks (applyOp fs (FileOp.openTrunc tmp)) ""
      simp [applyOp]
    have hfptmp : (fp == tmp) = false := by
      rw [beq_eq_false_iff_ne]
      exact fp_ne_fp_append_tmp fp
    have hclose : ∀ g : String → Option String,
        applyOp g (FileOp.closeF tmp) = g := fun g => rfl
    have hren : ∀ g : String → Option String,
        applyOp g (FileOp.renameReplace tmp fp) fp = g tmp := by
      intro g
      simp [applyOp, hfptmp]
    rw [List.foldl_append, List.foldl_cons, List.foldl_cons, List.foldl_nil,
      hclose, hren, List.foldl_cons, hmid]
    simp

/-- Witness for C9's intermediate-visibility clause at a concrete write. -/
theorem C9_policy_write_atomic_visibility_witness :
    2 < (Api.write_directory_config_ops "directories.d" "a.yaml"
      ["x: 1\n"]).length ∧
    Api.runOps (fun _ => none)
        ((Api.write_directory_config_ops "directories.d" "a.yaml"
          ["x: 1\n"]).take 2) ("directories.d" ++ "/" ++ "a.yaml") =
      (fun _ => (none : Option String)) ("directories.d" ++ "/" ++ "a.yaml") :=
  ⟨by decide,
    C9_policy_write_atomic_visibility.2.1 "directories.d" "a.yaml"
      ["x: 1\n"] (fun _ => none) 2 (by decide)⟩

/-- C10: a directory config that has a `target_directory` but omits
`monitor_method`, `max_file_age_days`, `max_size_bytes` and `remove` is
not rejected: it is processed under the size policy in dry-run mode with
`max_file_age_days = 30` and `max_size_bytes = 400*1024^3`, and its
summary is logged to history like any other run. -/
theorem C10_missing_fields_default_to_dry_run_size
    (dbOk : Bool) (fr : String → Bool) (norm : String → Option String)
    (prot : List String) (now : Int) (st : Cleanup.EvictState) (t : String)
    (h : Cleanup.is_path_protected prot (norm t) = false) :
    Cleanup.processTarget dbOk fr norm prot now st
        { target_directory := some t } =
      (let r := Cleanup.cleanup_directory_by_size dbOk fr st t now
          (400 * 1024 ^ 3) 30 true
       Cleanup.save_history_log r.1 t r.2) := by
  simp [Cleanup.processTarget, h]

/-- Witness for C10 at a concrete state. -/
theorem C10_missing_fields_default_to_dry_run_size_witness :
    Cleanup.is_path_protected [] ((fun s => some s) "/data") = false ∧
    Cleanup.processTarget true (fun _ => false) (fun s => some s) [] 0
        ⟨[], [], []⟩ { target_directory := some "/data" } =
      (let r := Cleanup.cleanup_directory_by_size true (fun _ => false)
          ⟨[], [], []⟩ "/data" 0 (400 * 1024 ^ 3) 30 true
       Cleanup.save_history_log r.1 "/data" r.2) :=
  ⟨by decide,
    C10_missing_fields_default_to_dry_run_size true (fun _ => false)
      (fun s => some s) [] 0 ⟨[], [], []⟩ "/data" (by decide)⟩
